import Mathlib

/-!
Verification of the post-recognition segmentation and timestamp pipeline
of the meeting-transcriber repository.

The Python sources are embedded shallowly: times are rationals, 16-bit
samples are integers, the streaming recognizer is abstracted as the list
of finalized results it hands the code, and file effects are explicit
state passing.  Each definition mirrors one function of
`src/transcriber/vosk_transcriber.py` or
`src/transcriber/speaker_diarizer.py`.
-/

unseal Rat.mul Rat.add Rat.sub Rat.inv

/-- A word event as produced by the recognizer: text plus start/end time
in seconds (`timestamped_words` entries in `vosk_transcriber.py`). -/
structure TWord where
  word : String
  start : ℚ
  stop : ℚ
deriving Repr, DecidableEq

/-- Python int conversion of a real value: truncation toward zero. -/
def pyInt (x : ℚ) : ℤ := if 0 ≤ x then ⌊x⌋ else ⌈x⌉

/-- Python zero-padded decimal formatting to width 2 (the 02d format). -/
def pad2 (m : ℤ) : String :=
  if 0 ≤ m ∧ m < 10 then "0" ++ toString m else toString m

/-- Model of `VoskTranscriber._format_timestamp` (also duplicated in
`speaker_diarizer.py`): minutes are the integer floor quotient by 60 and seconds the integer
floor remainder, rendered as MM:SS.  Float floor-division and
float modulus are exact on rationals. -/
def formatTimestamp (s : ℚ) : String :=
  let minutes : ℤ := ⌊s / 60⌋
  let secs : ℤ := pyInt (s - 60 * (⌊s / 60⌋ : ℚ))
  pad2 minutes ++ ":" ++ pad2 secs

/-- One output line of `_format_timestamped_transcript`:
`[start - end] joined words`. -/
def renderLine (s e : ℚ) (ws : List String) : String :=
  "[" ++ formatTimestamp s ++ " - " ++ formatTimestamp e ++ "] " ++
    String.intercalate " " ws

/-- The lookahead pause test
that the source writes as: a next word exists and its start minus the current word end exceeds the threshold;
true when a next word exists and the gap to it exceeds the threshold. -/
def pauseGap (thr : ℚ) (w : TWord) (rest : List TWord) : Bool :=
  match rest with
  | [] => false
  | next :: _ => decide (thr < next.start - w.stop)

/-- The word loop of `_format_timestamped_transcript`.  `cur` is
`current_line_words`, `curStart` is `current_line_start`
(none models the Python None), and `lastEnd` tracks the end time of the word
handled last (used by the trailing flush, where the source reads
the end time of the last element of timestamped_words). -/
def buildLines (cap : ℕ) : List TWord → List String → Option ℚ → ℚ → List String
  | [], cur, curStart, lastEnd =>
      if cur.isEmpty then []
      else [renderLine ((curStart).getD 0) lastEnd cur]
  | w :: rest, cur, curStart, _ =>
      let lineStart := (curStart).getD w.start
      let cur' := cur ++ [w.word]
      let breakHere : Bool := decide (cap ≤ cur'.length) || pauseGap 1 w rest
      if breakHere then
        renderLine lineStart w.stop cur' :: buildLines cap rest [] none w.stop
      else
        buildLines cap rest cur' (some lineStart) w.stop

/-- Model of `VoskTranscriber._format_timestamped_transcript` with the default
`words_per_line = 10` and the hard-coded 1-second pause threshold. -/
def formatTimestampedTranscript (ws : List TWord) : String :=
  if ws.isEmpty then "" else String.intercalate "\n" (buildLines 10 ws [] none 0)

/-- Zero-padding to two digits for naturals (spec-side rendering). -/
def pad2Nat (n : ℕ) : String :=
  if n < 10 then "0" ++ toString n else toString n

/-- Spec-side timestamp rendering, from the words of the spec: truncate the
time to whole seconds, then render minutes and seconds as `MM:SS`. -/
def specTimestamp (s : ℚ) : String :=
  let t : ℕ := ⌊s⌋₊
  pad2Nat (t / 60) ++ ":" ++ pad2Nat (t % 60)

/-- Spec-side rendering of one closed line `[mm:ss - mm:ss] text` from
the start of the first word and the end of the last word. -/
def specRenderLine : ℚ × ℚ × List String → String
  | (s, e, ws) =>
      "[" ++ specTimestamp s ++ " - " ++ specTimestamp e ++ "] " ++
        String.intercalate " " ws

/-- Spec-side grouping, from the words of the spec: greedily accumulate words
into the current line (`n` words so far, started at `s`, last word ended
at `e`, words accumulated in reverse in `acc`); close the line when it
reaches `cap` words or the gap to the next word exceeds `thr`. -/
def specGroupAux (cap : ℕ) (thr : ℚ) :
    List TWord → ℕ → ℚ → ℚ → List String → List (ℚ × ℚ × List String)
  | [], n, s, e, acc => if n = 0 then [] else [(s, e, acc.reverse)]
  | w :: rest, n, s, _, acc =>
      let s' := if n = 0 then w.start else s
      let acc' := w.word :: acc
      let closeHere : Bool := decide (cap ≤ n + 1) || pauseGap thr w rest
      if closeHere then
        (s', w.stop, acc'.reverse) :: specGroupAux cap thr rest 0 0 0 []
      else
        specGroupAux cap thr rest (n + 1) s' w.stop acc'

/-- Spec-side line-wrapped transcript: word cap 10, pause threshold 1 s. -/
def specFormatTranscript (ws : List TWord) : String :=
  String.intercalate "\n" ((specGroupAux 10 1 ws 0 0 0 []).map specRenderLine)

/-- The word list of the formatting scenario of the spec. -/
def exampleWords : List TWord :=
  [⟨"hello", 0, 1/2⟩, ⟨"world", 1/2, 1⟩, ⟨"pause", 7/2, 4⟩]

/-- A WAV file as the conversion code sees it: header parameters plus the
decoded signed 16-bit samples (interleaved when stereo). -/
structure WavFile where
  channels : ℕ
  sampwidth : ℕ
  framerate : ℕ
  samples : List ℤ
deriving Repr, DecidableEq

/-- The stereo-downmix loop of `_convert_to_mono_pcm`: every interleaved
pair is replaced by `(left + right) // 2` (Python floor division). -/
def monoSamples : List ℤ → List ℤ
  | a :: b :: rest => (a + b).fdiv 2 :: monoSamples rest
  | _ => []

/-- Model of `VoskTranscriber._convert_to_mono_pcm`: stereo input is downmixed by
per-pair integer averaging; the sample width is forced to 2 bytes and the
frame rate is copied from the input. -/
def convertToMonoPCM (f : WavFile) : WavFile :=
  if f.channels = 2 then
    { channels := 1, sampwidth := 2, framerate := f.framerate,
      samples := monoSamples f.samples }
  else
    { channels := f.channels, sampwidth := 2, framerate := f.framerate,
      samples := f.samples }

/-- Python strip: drop whitespace from both ends (computed on
the character list). -/
def pyStrip (s : String) : String :=
  ⟨((s.data.dropWhile Char.isWhitespace).reverse.dropWhile
      Char.isWhitespace).reverse⟩

/-- One finalized recognizer result as consumed by
`SpeakerDiarizer.detect_speaker_changes`: the reported text plus the
word-level timing list (the result word list). -/
structure RecResult where
  text : String
  words : List TWord
deriving Repr, DecidableEq

/-- A speaker segment dictionary of `detect_speaker_changes`. -/
structure Segment where
  speaker : String
  startTime : ℚ
  endTime : ℚ
  duration : ℚ
  text : String
deriving Repr, DecidableEq

/-- The mutable loop state of `detect_speaker_changes`: accumulated
segments, `current_speaker`, `segment_start`, `last_speaker_change`. -/
structure DState where
  segments : List Segment
  currentSpeaker : ℕ
  segmentStart : ℚ
  lastChange : ℚ
deriving Repr, DecidableEq

/-- Model of `SpeakerDiarizer._extract_text_for_segment`: the words of the given
list whose start time lies in `[startTime, endTime]`, joined by spaces. -/
def extractTextForSegment (words : List TWord) (startTime endTime : ℚ) : String :=
  String.intercalate " "
    ((words.filter fun w => decide (startTime ≤ w.start ∧ w.start ≤ endTime)).map
      (·.word))

/-- End time of the last word of a result (0 when the key is absent). -/
def latestEnd (words : List TWord) : ℚ :=
  (words.getLastD ⟨"", 0, 0⟩).stop

/-- One iteration of the chunk loop of `detect_speaker_changes`, applied
to a finalized recognizer result. -/
def detectStep (minDur : ℚ) (st : DState) (r : RecResult) : DState :=
  if pyStrip r.text ≠ "" ∧ r.words ≠ [] then
    let segEnd := latestEnd r.words
    let silence := segEnd - st.lastChange
    if silence > 2 ∧ segEnd - st.segmentStart > minDur then
      { segments := st.segments ++
          [{ speaker := "Speaker " ++ toString st.currentSpeaker,
             startTime := st.segmentStart, endTime := segEnd,
             duration := segEnd - st.segmentStart,
             text := extractTextForSegment r.words st.segmentStart segEnd }],
        currentSpeaker := st.currentSpeaker + 1,
        segmentStart := segEnd, lastChange := segEnd }
    else
      { st with lastChange := segEnd }
  else st

/-- The whole chunk loop of `detect_speaker_changes` over the stream of
finalized recognizer results. -/
def detectLoop (minDur : ℚ) (results : List RecResult) : DState :=
  results.foldl (detectStep minDur) ⟨[], 1, 0, 0⟩

/-- Model of `SpeakerDiarizer.detect_speaker_changes`: run the chunk loop, then
flush the trailing final-result text (if non-blank) as one last segment
whose end time is estimated as `last_speaker_change + 1.0`. -/
def detectSpeakerChanges (results : List RecResult) (finalText : String)
    (minDur : ℚ) : List Segment :=
  let st := detectLoop minDur results
  if pyStrip finalText ≠ "" then
    st.segments ++
      [{ speaker := "Speaker " ++ toString st.currentSpeaker,
         startTime := st.segmentStart, endTime := st.lastChange + 1,
         duration := st.lastChange + 1 - st.segmentStart,
         text := finalText }]
  else st.segments

/-- The dictionary returned by `SpeakerDiarizer.transcribe_with_speakers`
and `_fallback_transcription`; `warning` is present only on the fallback
path. -/
structure DResult where
  fullTranscript : String
  segments : List Segment
  speakerCount : ℕ
  totalDuration : ℚ
  warning : Option String
deriving Repr, DecidableEq

/-- Model of `SpeakerDiarizer._fallback_transcription`: re-transcribe without
segmentation (chunk results `none` = no finalized result this chunk) and
wrap the output in the diarization-failed marker. -/
def fallbackTranscription (errorMsg : String) (chunks : List (Option String))
    (finalText : String) : DResult :=
  let transcript :=
    (chunks.foldl (fun acc c => match c with
      | none => acc
      | some t => acc ++ t ++ " ") "") ++ finalText
  let body := pyStrip transcript
  { fullTranscript :=
      "[Single Speaker - Diarization Failed: " ++ errorMsg ++ "]\n\n" ++ body,
    segments := [{ speaker := "Speaker 1 (Unknown)", startTime := 0,
                   endTime := 0, duration := 0, text := body }],
    speakerCount := 1,
    totalDuration := 0,
    warning := some ("Speaker diarization failed: " ++ errorMsg) }

/-- The success branch of `SpeakerDiarizer.transcribe_with_speakers`:
label every segment, count distinct speaker labels, and report the last
end time of the last segment as the total duration. -/
def successResult (segments : List Segment) : DResult :=
  let fullTranscript :=
    pyStrip (String.join (segments.map fun seg =>
      "\n[" ++ formatTimestamp seg.startTime ++ " - " ++
        formatTimestamp seg.endTime ++ "] " ++ seg.speaker ++ ":\n" ++
        seg.text ++ "\n"))
  { fullTranscript := fullTranscript,
    segments := segments,
    speakerCount := (segments.map (·.speaker)).toFinset.card,
    totalDuration := (match segments.getLast? with
      | some seg => seg.endTime
      | none => 0),
    warning := none }

/-- Model of `SpeakerDiarizer.transcribe_with_speakers`: the recognizer stream is
either delivered (`Except.ok`, with the loop results and the final
final text) or aborted by an exception (`Except.error` with its
message), in which case the fallback transcription runs on its own pass
over the audio (`fbChunks`, `fbFinal`). -/
def transcribeWithSpeakers (input : Except String (List RecResult × String))
    (fbChunks : List (Option String)) (fbFinal : String) : DResult :=
  match input with
  | .ok (results, finalText) =>
      successResult (detectSpeakerChanges results finalText 3)
  | .error e => fallbackTranscription e fbChunks fbFinal

/-- Python abs of a real value. -/
def pyAbs (x : ℚ) : ℚ := if x < 0 then -x else x

/-- Python max over a non-empty list (a left fold of the binary maximum),
or 1 when the window list is empty, as in the source. -/
def maxEnergy : List ℚ → ℚ
  | [] => 1
  | e :: rest => rest.foldl max e

/-- The normalization step of `SimpleSpeakerDiarizer`: divide every
window energy by the maximal one. -/
def normalizeEnergies (windows : List ℚ) : List ℚ :=
  windows.map (· / maxEnergy windows)

/-- The boundary walk of `SimpleSpeakerDiarizer`: scan the normalized
energies from index `i` with reference energy `cur`; record an index and
reset the reference whenever the energy jumps by more than `thr`. -/
def scanChanges (thr : ℚ) : List ℚ → ℕ → ℚ → List ℕ
  | [], _, _ => []
  | e :: rest, i, cur =>
      if pyAbs (e - cur) > thr then i :: scanChanges thr rest (i + 1) e
      else scanChanges thr rest (i + 1) cur

/-- The speaker_changes list: index 0 plus every index recorded by the walk over
the tail of the normalized energies starting from their head. -/
def speakerChanges (thr : ℚ) (normalized : List ℚ) : List ℕ :=
  0 :: scanChanges thr (normalized.drop 1) 1 (normalized.headD 0)

/-- Boundary set computed by the energy pass from the raw window
energies. -/
def speakerChangesOf (thr : ℚ) (windows : List ℚ) : List ℕ :=
  speakerChanges thr (normalizeEnergies windows)

/-- A segment dictionary of `SimpleSpeakerDiarizer.transcribe_with_speakers`
(the speaker label is the integer rendered as `Speaker N`). -/
structure ESeg where
  speaker : ℕ
  text : String
  estTime : ℚ
deriving Repr, DecidableEq

/-- The recognition-pass loop state of `SimpleSpeakerDiarizer`:
accumulated segments, `current_speaker` and `transcript_parts`. -/
structure EState where
  segments : List ESeg
  speaker : ℕ
  parts : List String
deriving Repr, DecidableEq

/-- One chunk of the recognition pass of `SimpleSpeakerDiarizer`:
`none` means the chunk produced no finalized result; a finalized result
with blank text is skipped; otherwise the time is estimated as
the length of transcript_parts times 0.25 and the speaker id is bumped when the
floor of that estimate is a recorded boundary and a segment exists. -/
def energyStep (changes : List ℕ) (st : EState) (chunk : Option String) : EState :=
  match chunk with
  | none => st
  | some raw =>
      let text := pyStrip raw
      if text = "" then st
      else
        let est : ℚ := (st.parts.length : ℚ) * (1/4)
        let timeWindow : ℕ := (pyInt est).toNat
        let spk := if timeWindow ∈ changes ∧ st.segments ≠ [] then st.speaker + 1
                   else st.speaker
        { segments := st.segments ++ [⟨spk, text, est⟩],
          speaker := spk,
          parts := st.parts ++ [text] }

/-- The whole recognition-pass loop of `SimpleSpeakerDiarizer`. -/
def runEnergy (changes : List ℕ) (chunks : List (Option String)) : EState :=
  chunks.foldl (energyStep changes) ⟨[], 1, []⟩

/-- The result of `SimpleSpeakerDiarizer.transcribe_with_speakers`
restricted to the fields the claims are about: the segment list and
`speaker_count` (which the source sets to the final `current_speaker`). -/
structure ESimpleResult where
  segments : List ESeg
  speakerCount : ℕ
deriving Repr, DecidableEq

/-- `SimpleSpeakerDiarizer.transcribe_with_speakers` on a fixed input
signal, given as its energy-window sequence (the per-window mean-square
energies of the first pass) and its recognized-chunk sequence, plus the
final pending text of the recognizer. -/
def simpleTranscribeWithSpeakers (thr : ℚ) (windows : List ℚ)
    (chunks : List (Option String)) (finalText : String) : ESimpleResult :=
  let changes := speakerChangesOf thr windows
  let st := runEnergy changes chunks
  let segments :=
    if pyStrip finalText ≠ "" then
      st.segments ++ [⟨st.speaker, finalText, (st.parts.length : ℚ) * (1/4)⟩]
    else st.segments
  ⟨segments, st.speaker⟩

/-- How the conversion step of `VoskTranscriber.transcribe` can behave:
succeed, or raise after the converted file has been created (for example
a failed write after the output file has been opened), or raise before
creating it. -/
inductive ConvBehavior
  | succeeds
  | failsAfterCreate
  | failsBeforeCreate
deriving Repr, DecidableEq

/-- How the recognition loop of `VoskTranscriber.transcribe` can behave:
return a transcript or raise. -/
inductive RecBehavior
  | succeeds (transcript : String)
  | fails (msg : String)
deriving Repr, DecidableEq

/-- The exceptions `VoskTranscriber.transcribe` can raise. -/
inductive TranscribeError
  | fileNotFound
  | notWav
  | runtimeConvError
  | recognizerError (msg : String)
deriving Repr, DecidableEq

/-- Everything before the last dot of a path, as computed by rsplit with
maxsplit 1 (the whole string when there is no dot). -/
def beforeLastDot (p : String) : String :=
  let parts := p.splitOn "."
  if parts.length ≤ 1 then p else String.intercalate "." parts.dropLast

/-- The name of the temporary converted file of
`VoskTranscriber.transcribe`. -/
def convertedName (p : String) : String := beforeLastDot p ++ "_converted.wav"

/-- Model of `VoskTranscriber.transcribe` with the file system made explicit: the
returned pair is the outcome (transcript or raised error) and the file
set after the call.  The conversion step runs inside a `try/except` that
re-raises without cleanup; the recognition loop runs inside
`try/finally` whose `finally` deletes the converted file if it exists. -/
def transcribe (fs : List String) (path : String) (pathExists isWavName needsConversion : Bool)
    (conv : ConvBehavior) (rec : RecBehavior) :
    Except TranscribeError String × List String :=
  if !pathExists then (.error .fileNotFound, fs)
  else if !isWavName then (.error .notWav, fs)
  else if needsConversion then
    match conv with
    | .failsBeforeCreate => (.error .runtimeConvError, fs)
    | .failsAfterCreate => (.error .runtimeConvError, convertedName path :: fs)
    | .succeeds =>
        let fs' := convertedName path :: fs
        match rec with
        | .succeeds t => (.ok t, fs'.erase (convertedName path))
        | .fails m => (.error (.recognizerError m), fs'.erase (convertedName path))
  else
    match rec with
    | .succeeds t => (.ok t, fs)
    | .fails m => (.error (.recognizerError m), fs)

/-- The two finalized results of the C3 scenario: one word at seconds
0 to 1, then one word at seconds 5 to 6. -/
def exampleResults : List RecResult :=
  [⟨"a", [⟨"a", 0, 1⟩]⟩, ⟨"b", [⟨"b", 5, 6⟩]⟩]

/-- A concrete stereo 16-bit file with two frames. -/
def exampleWav : WavFile := ⟨2, 2, 16000, [3, 4, -5, 2]⟩

theorem fallback_marker_starts (msg body : String) :
    ∃ rest, "[Single Speaker - Diarization Failed: " ++ msg ++ "]\n\n" ++ body
      = "[Single Speaker - Diarization Failed:" ++ " " ++ msg ++ rest := by
  refine ⟨"]\n\n" ++ body, ?_⟩
  have h : "[Single Speaker - Diarization Failed: "
      = "[Single Speaker - Diarization Failed:" ++ " " := rfl
  rw [h]
  simp only [String.append_assoc]

/-- C8: if the segmenter raises, the orchestrator catches the exception
and returns a fallback result whose transcript starts with the
`[Single Speaker - Diarization Failed:` marker followed (after the
marker space) by the reason string, whose warning is a non-empty string,
and whose speaker count is 1. -/
theorem c8_fallback_marker (e : String) (fbChunks : List (Option String))
    (fbFinal : String) :
    (∃ rest, (transcribeWithSpeakers (.error e) fbChunks fbFinal).fullTranscript
        = "[Single Speaker - Diarization Failed:" ++ " " ++ e ++ rest) ∧
    (∃ w, (transcribeWithSpeakers (.error e) fbChunks fbFinal).warning = some w ∧
        w ≠ "") ∧
    (transcribeWithSpeakers (.error e) fbChunks fbFinal).speakerCount = 1 := by
  refine ⟨fallback_marker_starts e _, ⟨"Speaker diarization failed: " ++ e, rfl, ?_⟩, rfl⟩
  intro hw
  have h2 := congrArg String.length hw
  rw [String.length_append] at h2
  have h3 : ("Speaker diarization failed: " : String).length = 28 := rfl
  have h4 : ("" : String).length = 0 := rfl
  omega

/-- C10: whenever the fallback single-speaker path is taken, the result
has `total_duration = 0` and exactly one segment, whose start time, end
time and duration are all 0, regardless of the audio or the text. -/
theorem c10_fallback_zero_duration (e : String) (fbChunks : List (Option String))
    (fbFinal : String) :
    (transcribeWithSpeakers (.error e) fbChunks fbFinal).totalDuration = 0 ∧
    ∃ t, (transcribeWithSpeakers (.error e) fbChunks fbFinal).segments
        = [{ speaker := "Speaker 1 (Unknown)", startTime := 0, endTime := 0,
             duration := 0, text := t }] :=
  ⟨rfl, _, rfl⟩

/-- C9 counterexample: with a conversion step that fails after creating
the converted file (what the claim calls the "conversion failure" exit path), the call
raises but the temporary file is still present afterwards. -/
theorem c9_temp_cleanup_counterexample :
    (transcribe [] "a.wav" true true true .failsAfterCreate (.succeeds "t")).1
        = .error .runtimeConvError ∧
    convertedName "a.wav" ∈
      (transcribe [] "a.wav" true true true .failsAfterCreate (.succeeds "t")).2 :=
  ⟨rfl, List.mem_cons_self _ _⟩

/-- C9 amended: the temporary converted file is deleted on every exit
path except a conversion failure that happens after the file has been
created. -/
theorem c9_temp_cleanup_amended (fs : List String) (path : String)
    (pathExists isWavName needsConversion : Bool) (conv : ConvBehavior)
    (rec : RecBehavior) (hfs : convertedName path ∉ fs)
    (hconv : conv ≠ .failsAfterCreate) :
    convertedName path ∉
      (transcribe fs path pathExists isWavName needsConversion conv rec).2 := by
  unfold transcribe
  cases pathExists <;> cases isWavName <;> cases needsConversion <;>
    cases conv <;> cases rec <;> simp_all [List.erase_cons_head]

/-- Witness for the amended C9 theorem at a concrete input: a successful
conversion followed by a recognizer failure leaves no temporary file. -/
theorem c9_temp_cleanup_amended_witness :
    convertedName "a.wav" ∉
      (transcribe [] "a.wav" true true true .succeeds (.fails "x")).2 :=
  c9_temp_cleanup_amended [] "a.wav" true true true .succeeds (.fails "x")
    (by decide) (by decide)

/-- C7 counterexample: on empty audio (no finalized results, blank final
text) the orchestrator returns an empty transcript without error, but the
speaker count is 0, not the claimed minimum of 1. -/
theorem c7_speaker_count_counterexample :
    (transcribeWithSpeakers (.ok ([], "")) [] "").fullTranscript = "" ∧
    (transcribeWithSpeakers (.ok ([], "")) [] "").speakerCount = 0 ∧
    ¬ (transcribeWithSpeakers (.ok ([], "")) [] "").speakerCount = 1 := by
  decide

/-- C7 amended: the speaker count always equals the number of distinct
speaker labels of the produced segments (with no minimum of 1), and on
empty audio the result has speaker count 0 and an empty transcript,
without error. -/
theorem c7_speaker_count_amended (input : Except String (List RecResult × String))
    (fbChunks : List (Option String)) (fbFinal : String) :
    ((transcribeWithSpeakers input fbChunks fbFinal).speakerCount
      = ((transcribeWithSpeakers input fbChunks fbFinal).segments.map
          Segment.speaker).toFinset.card) ∧
    (transcribeWithSpeakers (.ok ([], "")) fbChunks fbFinal).speakerCount = 0 ∧
    (transcribeWithSpeakers (.ok ([], "")) fbChunks fbFinal).fullTranscript = "" := by
  refine ⟨?_, rfl, rfl⟩
  match input with
  | .ok (results, finalText) => rfl
  | .error e =>
      show (1 : ℕ) = _
      simp [transcribeWithSpeakers, fallbackTranscription]

theorem monoSamples_length : ∀ l : List ℤ, (monoSamples l).length = l.length / 2
  | [] => rfl
  | [_] => by simp [monoSamples]
  | _ :: _ :: rest => by
      simp only [monoSamples, List.length_cons]
      rw [monoSamples_length rest]
      omega

theorem monoSamples_getD : ∀ (l : List ℤ) (i : ℕ), 2 * i + 1 < l.length →
    (monoSamples l).getD i 0
      = ((l.getD (2 * i) 0) + (l.getD (2 * i + 1) 0)).fdiv 2
  | _ :: _ :: _, 0, _ => rfl
  | a :: b :: rest, i + 1, h => by
      have h' : 2 * i + 1 < rest.length := by
        simp only [List.length_cons] at h
        omega
      have e1 : 2 * (i + 1) = 2 * i + 1 + 1 := by ring
      have e2 : 2 * (i + 1) + 1 = 2 * i + 1 + 1 + 1 := by ring
      simp only [monoSamples, List.getD_cons_succ, e1, e2]
      exact monoSamples_getD rest i h'
  | [], i, h => absurd h (by simp)
  | [_], i, h => by
      simp only [List.length_singleton] at h
      omega

/-- C2: for every valid stereo 16-bit WAV input, the mono conversion
yields one sample per input frame, each equal to the floored integer
average of the corresponding interleaved left/right pair, and keeps the
input frame rate. -/
theorem c2_mono_conversion (f : WavFile) (n : ℕ) (hch : f.channels = 2)
    (hsw : f.sampwidth = 2) (hlen : f.samples.length = 2 * n) :
    (convertToMonoPCM f).samples.length = n ∧
    (∀ i, i < n → (convertToMonoPCM f).samples.getD i 0
        = ((f.samples.getD (2 * i) 0) + (f.samples.getD (2 * i + 1) 0)).fdiv 2) ∧
    (convertToMonoPCM f).framerate = f.framerate ∧
    (convertToMonoPCM f).channels = 1 := by
  have hconv : convertToMonoPCM f =
      { channels := 1, sampwidth := 2, framerate := f.framerate,
        samples := monoSamples f.samples } := by
    rw [convertToMonoPCM, if_pos hch]
  rw [hconv]
  refine ⟨?_, ?_, rfl, rfl⟩
  · rw [monoSamples_length, hlen]
    omega
  · intro i hi
    exact monoSamples_getD f.samples i (by omega)

/-- Witness for C2 at a concrete stereo file. -/
theorem c2_mono_conversion_witness :
    (convertToMonoPCM exampleWav).samples.length = 2 ∧
    (convertToMonoPCM exampleWav).samples.getD 1 0
      = ((exampleWav.samples.getD 2 0) + (exampleWav.samples.getD 3 0)).fdiv 2 ∧
    (convertToMonoPCM exampleWav).framerate = exampleWav.framerate ∧
    (convertToMonoPCM exampleWav).channels = 1 :=
  ⟨(c2_mono_conversion exampleWav 2 rfl rfl rfl).1,
   (c2_mono_conversion exampleWav 2 rfl rfl rfl).2.1 1 (by decide),
   (c2_mono_conversion exampleWav 2 rfl rfl rfl).2.2.1,
   (c2_mono_conversion exampleWav 2 rfl rfl rfl).2.2.2⟩

theorem detectLoop_duration_aux (minDur : ℚ) : ∀ (results : List RecResult) (st : DState),
    (∀ s ∈ st.segments, minDur < s.duration) →
    ∀ s ∈ (results.foldl (detectStep minDur) st).segments, minDur < s.duration := by
  intro results
  induction results with
  | nil => intro st h; simpa using h
  | cons r rest ih =>
      intro st h
      simp only [List.foldl_cons]
      apply ih
      intro s hs
      simp only [detectStep] at hs
      split at hs
      · split at hs
        next hcond =>
          rcases List.mem_append.mp hs with h1 | h1
          · exact h s h1
          · have h2 := List.mem_singleton.mp h1
            subst h2
            exact hcond.2
        next => exact h s hs
      · exact h s hs

/-- C4: every segment emitted by the silence-gap segmenter has duration
strictly greater than `minSegmentDuration`, except possibly the final
flushed segment, whose end time is `lastBoundaryTime + 1.0`. -/
theorem c4_min_segment_duration (results : List RecResult) (finalText : String)
    (minDur : ℚ) :
    (∀ s ∈ (detectLoop minDur results).segments, minDur < s.duration) ∧
    (detectSpeakerChanges results finalText minDur
        = (detectLoop minDur results).segments ∨
      ∃ flushSeg, detectSpeakerChanges results finalText minDur
          = (detectLoop minDur results).segments ++ [flushSeg] ∧
        flushSeg.endTime = (detectLoop minDur results).lastChange + 1) := by
  constructor
  · exact detectLoop_duration_aux minDur results ⟨[], 1, 0, 0⟩
      (by intro s hs; exact absurd hs (List.not_mem_nil s))
  · unfold detectSpeakerChanges
    split
    · right; exact ⟨_, rfl, rfl⟩
    · left; rfl

/-- Witness for C4: at the C3/C4 scenario input the single emitted
segment is longer than the 3-second minimum. -/
theorem c4_min_segment_duration_witness :
    (3 : ℚ) < ({ speaker := "Speaker 1", startTime := 0, endTime := 6,
                 duration := 6, text := "b" } : Segment).duration :=
  (c4_min_segment_duration exampleResults "" 3).1 _ (by decide)

/-- C3 counterexample: at the two-result stream of `exampleResults` the
segmenter closes one segment spanning 0 to 6 seconds, but its text is
only the words of the second (triggering) result; the words of the whole stream
in that interval would give a different text. -/
theorem c3_segment_text_counterexample :
    detectSpeakerChanges exampleResults "" 3
      = [{ speaker := "Speaker 1", startTime := 0, endTime := 6, duration := 6,
           text := "b" }] ∧
    extractTextForSegment [⟨"a", 0, 1⟩, ⟨"b", 5, 6⟩] 0 6 = "a b" ∧
    ("b" : String) ≠ "a b" := by
  decide

theorem detectLoop_text_aux (minDur : ℚ) : ∀ (results : List RecResult) (st : DState),
    ∀ s ∈ (results.foldl (detectStep minDur) st).segments,
      s ∈ st.segments ∨
        ∃ pre r post, results = pre ++ r :: post ∧
          pyStrip r.text ≠ "" ∧ r.words ≠ [] ∧
          latestEnd r.words - (pre.foldl (detectStep minDur) st).lastChange > 2 ∧
          latestEnd r.words - (pre.foldl (detectStep minDur) st).segmentStart > minDur ∧
          s = { speaker := "Speaker " ++
                  toString (pre.foldl (detectStep minDur) st).currentSpeaker,
                startTime := (pre.foldl (detectStep minDur) st).segmentStart,
                endTime := latestEnd r.words,
                duration := latestEnd r.words
                  - (pre.foldl (detectStep minDur) st).segmentStart,
                text := extractTextForSegment r.words
                  (pre.foldl (detectStep minDur) st).segmentStart
                  (latestEnd r.words) } := by
  intro results
  induction results with
  | nil => intro st s hs; exact .inl (by simpa using hs)
  | cons r rest ih =>
      intro st s hs
      simp only [List.foldl_cons] at hs
      rcases ih (detectStep minDur st r) s hs with h1 | h1
      · simp only [detectStep] at h1
        split at h1
        next hguard =>
          split at h1
          next hclose =>
            rcases List.mem_append.mp h1 with h2 | h2
            · exact .inl h2
            · right
              exact ⟨[], r, rest, rfl, hguard.1, hguard.2, hclose.1, hclose.2,
                List.mem_singleton.mp h2⟩
          next => exact .inl h1
        next => exact .inl h1
      · right
        obtain ⟨pre, r0, post, heq, hg1, hg2, hc1, hc2, hseg⟩ := h1
        refine ⟨r :: pre, r0, post, by rw [heq, List.cons_append], hg1, hg2, ?_, ?_, ?_⟩
        · rw [List.foldl_cons]; exact hc1
        · rw [List.foldl_cons]; exact hc2
        · rw [List.foldl_cons]; exact hseg

/-- C3 amended: the text of every non-final segment consists of exactly
the words of the single finalized recognizer result that triggered the
closure whose start lies in the closed interval; words of earlier
results are never included.  Part one characterizes one closing step:
when the guards hold, the appended segment is built from that result
alone.  Part two locates, for every segment of any run, the unique
triggering result inside the stream (the state before it being the fold
over the preceding results) and shows the segment equals the record
extracted from that result only. -/
theorem c3_segment_text_amended :
    (∀ (minDur : ℚ) (st : DState) (r : RecResult),
        pyStrip r.text ≠ "" → r.words ≠ [] →
        latestEnd r.words - st.lastChange > 2 →
        latestEnd r.words - st.segmentStart > minDur →
        detectStep minDur st r
          = { segments := st.segments ++
                [{ speaker := "Speaker " ++ toString st.currentSpeaker,
                   startTime := st.segmentStart,
                   endTime := latestEnd r.words,
                   duration := latestEnd r.words - st.segmentStart,
                   text := extractTextForSegment r.words st.segmentStart
                     (latestEnd r.words) }],
              currentSpeaker := st.currentSpeaker + 1,
              segmentStart := latestEnd r.words,
              lastChange := latestEnd r.words }) ∧
    (∀ (minDur : ℚ) (results : List RecResult),
        ∀ s ∈ (detectLoop minDur results).segments,
          ∃ pre r post, results = pre ++ r :: post ∧
            pyStrip r.text ≠ "" ∧ r.words ≠ [] ∧
            latestEnd r.words - (detectLoop minDur pre).lastChange > 2 ∧
            latestEnd r.words - (detectLoop minDur pre).segmentStart > minDur ∧
            s = { speaker := "Speaker " ++
                    toString (detectLoop minDur pre).currentSpeaker,
                  startTime := (detectLoop minDur pre).segmentStart,
                  endTime := latestEnd r.words,
                  duration := latestEnd r.words
                    - (detectLoop minDur pre).segmentStart,
                  text := extractTextForSegment r.words
                    (detectLoop minDur pre).segmentStart
                    (latestEnd r.words) }) := by
  constructor
  · intro minDur st r h1 h2 h3 h4
    simp only [detectStep]
    rw [if_pos ⟨h1, h2⟩, if_pos ⟨h3, h4⟩]
  · intro minDur results s hs
    rcases detectLoop_text_aux minDur results ⟨[], 1, 0, 0⟩ s hs with h | h
    · exact absurd h (List.not_mem_nil s)
    · exact h

/-- Witness for the amended C3 theorem: one concrete closing step, and
the provenance of the one segment of the concrete scenario run. -/
theorem c3_segment_text_amended_witness :
    (detectStep 3 ⟨[], 1, 0, 1⟩ ⟨"b", [⟨"b", 5, 6⟩]⟩
        = { segments := [{ speaker := "Speaker 1", startTime := 0, endTime := 6,
                           duration := 6, text := "b" }],
            currentSpeaker := 2, segmentStart := 6, lastChange := 6 }) ∧
    (∃ pre r post, exampleResults = pre ++ r :: post ∧
        pyStrip r.text ≠ "" ∧ r.words ≠ [] ∧
        latestEnd r.words - (detectLoop 3 pre).lastChange > 2 ∧
        latestEnd r.words - (detectLoop 3 pre).segmentStart > 3 ∧
        ({ speaker := "Speaker 1", startTime := 0, endTime := 6, duration := 6,
           text := "b" } : Segment)
          = { speaker := "Speaker " ++ toString (detectLoop 3 pre).currentSpeaker,
              startTime := (detectLoop 3 pre).segmentStart,
              endTime := latestEnd r.words,
              duration := latestEnd r.words - (detectLoop 3 pre).segmentStart,
              text := extractTextForSegment r.words
                (detectLoop 3 pre).segmentStart (latestEnd r.words) }) :=
  ⟨c3_segment_text_amended.1 3 ⟨[], 1, 0, 1⟩ ⟨"b", [⟨"b", 5, 6⟩]⟩ (by decide)
      (by decide) (by decide) (by decide),
   c3_segment_text_amended.2 3 exampleResults _ (by decide)⟩

theorem pyInt_quarter (n : ℕ) : (pyInt ((n : ℚ) * (1/4))).toNat = n / 4 := by
  have h0 : (0:ℚ) ≤ (n : ℚ) * (1/4) := by positivity
  rw [pyInt, if_pos h0]
  have h1 : (n : ℚ) * (1/4) = ((n : ℕ) : ℚ) / ((4:ℕ) : ℚ) := by push_cast; ring
  rw [h1, Rat.floor_natCast_div_natCast, ← Int.ofNat_ediv]
  exact Int.toNat_natCast _

theorem runEnergy_est_aux (changes : List ℕ) :
    ∀ (chunks : List (Option String)) (st : EState),
      st.parts.length = st.segments.length →
      (∀ k, k < st.segments.length →
        (st.segments.getD k ⟨0, "", 0⟩).estTime = (k : ℚ) * (1/4)) →
      ((chunks.foldl (energyStep changes) st).parts.length
          = (chunks.foldl (energyStep changes) st).segments.length) ∧
      (∀ k, k < (chunks.foldl (energyStep changes) st).segments.length →
        ((chunks.foldl (energyStep changes) st).segments.getD k ⟨0, "", 0⟩).estTime
          = (k : ℚ) * (1/4)) := by
  intro chunks
  induction chunks with
  | nil => intro st h1 h2; exact ⟨h1, h2⟩
  | cons c rest ih =>
      intro st h1 h2
      simp only [List.foldl_cons]
      refine ih _ ?_ ?_
      · cases c with
        | none => exact h1
        | some raw =>
            simp only [energyStep]
            split
            · exact h1
            · simp only [List.length_append, List.length_singleton, h1]
      · cases c with
        | none => exact h2
        | some raw =>
            simp only [energyStep]
            split
            · exact h2
            · intro k hk
              simp only [List.length_append, List.length_singleton] at hk
              rcases Nat.lt_or_ge k st.segments.length with hlt | hge
              · rw [List.getD_append _ _ _ _ hlt]
                exact h2 k hlt
              · have hk' : k = st.segments.length := by omega
                subst hk'
                have hgd : ∀ (x : ESeg),
                    (st.segments ++ [x]).getD st.segments.length ⟨0, "", 0⟩ = x := by
                  intro x
                  simp [List.getD_eq_getElem?_getD, List.getElem?_append_right]
                rw [hgd]
                show (st.parts.length : ℚ) * (1/4) = (st.segments.length : ℚ) * (1/4)
                rw [h1]

/-- C5 counterexample: the first chunk produces no finalized result and
the second produces one, so the claim (chunk index times 0.25 s, chunk
index counting chunks read) predicts an estimate of 0.25 s; the code
estimates 0 because it counts previously accumulated non-empty results. -/
theorem c5_chunk_timestamp_counterexample :
    ((simpleTranscribeWithSpeakers (3/10) [1] [none, some "a"] "").segments.map
        ESeg.estTime = [0]) ∧
    ¬ ((0 : ℚ) = 1 * (1/4)) := by
  decide

/-- C5 amended: the timestamp estimate of the k-th non-empty finalized
chunk result is `k * 0.25` where k counts previously emitted non-empty
finalized results (not chunks read), and each such result is appended
with the speaker id incremented exactly when `floor(estimate)` is in the
boundary set and at least one result has already been assigned. -/
theorem c5_chunk_timestamp_amended :
    (∀ (thr : ℚ) (windows : List ℚ) (chunks : List (Option String)) (k : ℕ),
        k < ((runEnergy (speakerChangesOf thr windows) chunks).segments).length →
        (((runEnergy (speakerChangesOf thr windows) chunks).segments).getD k
            ⟨0, "", 0⟩).estTime = (k : ℚ) * (1/4)) ∧
    (∀ (changes : List ℕ) (st : EState) (raw : String), pyStrip raw ≠ "" →
        energyStep changes st (some raw)
          = { segments := st.segments ++
                [⟨(if st.parts.length / 4 ∈ changes ∧ st.segments ≠ []
                   then st.speaker + 1 else st.speaker),
                  pyStrip raw, (st.parts.length : ℚ) * (1/4)⟩],
              speaker := (if st.parts.length / 4 ∈ changes ∧ st.segments ≠ []
                   then st.speaker + 1 else st.speaker),
              parts := st.parts ++ [pyStrip raw] }) := by
  constructor
  · intro thr windows chunks k hk
    exact (runEnergy_est_aux (speakerChangesOf thr windows) chunks ⟨[], 1, []⟩ rfl
      (by intro k hk; simp at hk)).2 k hk
  · intro changes st raw hraw
    simp only [energyStep]
    rw [if_neg hraw, pyInt_quarter]

/-- Witness for the amended C5 theorem at concrete inputs. -/
theorem c5_chunk_timestamp_amended_witness :
    (((runEnergy (speakerChangesOf (3/10) [1]) [none, some "a"]).segments).getD 0
        ⟨0, "", 0⟩).estTime = ((0 : ℕ) : ℚ) * (1/4) ∧
    energyStep [0] ⟨[], 1, []⟩ (some "a")
      = { segments := ([] : List ESeg) ++
            [⟨(if ([] : List String).length / 4 ∈ [0] ∧ ([] : List ESeg) ≠ []
               then 1 + 1 else 1),
              pyStrip "a", (([] : List String).length : ℚ) * (1/4)⟩],
          speaker := (if ([] : List String).length / 4 ∈ [0] ∧ ([] : List ESeg) ≠ []
               then 1 + 1 else 1),
          parts := ([] : List String) ++ [pyStrip "a"] } :=
  ⟨c5_chunk_timestamp_amended.1 (3/10) [1] [none, some "a"] 0 (by decide),
   c5_chunk_timestamp_amended.2 [0] ⟨[], 1, []⟩ "a" (by decide)⟩

theorem runEnergy_mono_aux (c1 c2 : List ℕ) (hsub : ∀ i ∈ c2, i ∈ c1) :
    ∀ (chunks : List (Option String)) (st1 st2 : EState),
      st1.parts.length = st2.parts.length →
      (st1.segments = [] ↔ st2.segments = []) →
      st2.speaker ≤ st1.speaker →
      ((chunks.foldl (energyStep c1) st1).parts.length
          = (chunks.foldl (energyStep c2) st2).parts.length) ∧
      ((chunks.foldl (energyStep c1) st1).segments = []
          ↔ (chunks.foldl (energyStep c2) st2).segments = []) ∧
      (chunks.foldl (energyStep c2) st2).speaker
        ≤ (chunks.foldl (energyStep c1) st1).speaker := by
  intro chunks
  induction chunks with
  | nil => intro st1 st2 h1 h2 h3; exact ⟨h1, h2, h3⟩
  | cons c rest ih =>
      intro st1 st2 h1 h2 h3
      simp only [List.foldl_cons]
      cases c with
      | none => exact ih st1 st2 h1 h2 h3
      | some raw =>
          by_cases hraw : pyStrip raw = ""
          · have e1 : energyStep c1 st1 (some raw) = st1 := by
              simp only [energyStep]; rw [if_pos hraw]
            have e2 : energyStep c2 st2 (some raw) = st2 := by
              simp only [energyStep]; rw [if_pos hraw]
            rw [e1, e2]
            exact ih st1 st2 h1 h2 h3
          · have htw : (pyInt ((st1.parts.length : ℚ) * (1/4))).toNat
                = (pyInt ((st2.parts.length : ℚ) * (1/4))).toNat := by rw [h1]
            have e1 : energyStep c1 st1 (some raw)
                = { segments := st1.segments ++
                      [⟨(if (pyInt ((st1.parts.length : ℚ) * (1/4))).toNat ∈ c1
                            ∧ st1.segments ≠ []
                         then st1.speaker + 1 else st1.speaker),
                        pyStrip raw, (st1.parts.length : ℚ) * (1/4)⟩],
                    speaker := (if (pyInt ((st1.parts.length : ℚ) * (1/4))).toNat ∈ c1
                            ∧ st1.segments ≠ []
                         then st1.speaker + 1 else st1.speaker),
                    parts := st1.parts ++ [pyStrip raw] } := by
              simp only [energyStep]; rw [if_neg hraw]
            have e2 : energyStep c2 st2 (some raw)
                = { segments := st2.segments ++
                      [⟨(if (pyInt ((st2.parts.length : ℚ) * (1/4))).toNat ∈ c2
                            ∧ st2.segments ≠ []
                         then st2.speaker + 1 else st2.speaker),
                        pyStrip raw, (st2.parts.length : ℚ) * (1/4)⟩],
                    speaker := (if (pyInt ((st2.parts.length : ℚ) * (1/4))).toNat ∈ c2
                            ∧ st2.segments ≠ []
                         then st2.speaker + 1 else st2.speaker),
                    parts := st2.parts ++ [pyStrip raw] } := by
              simp only [energyStep]; rw [if_neg hraw]
          
            have himp : ((pyInt ((st2.parts.length : ℚ) * (1/4))).toNat ∈ c2
                  ∧ st2.segments ≠ []) →
                ((pyInt ((st1.parts.length : ℚ) * (1/4))).toNat ∈ c1
                  ∧ st1.segments ≠ []) := by
              intro hx
              refine ⟨?_, ?_⟩
              · rw [htw]; exact hsub _ hx.1
              · intro hnil; exact hx.2 (h2.mp hnil)
            have hsp : (if (pyInt ((st2.parts.length : ℚ) * (1/4))).toNat ∈ c2
                  ∧ st2.segments ≠ [] then st2.speaker + 1 else st2.speaker)
                ≤ (if (pyInt ((st1.parts.length : ℚ) * (1/4))).toNat ∈ c1
                  ∧ st1.segments ≠ [] then st1.speaker + 1 else st1.speaker) := by
              by_cases hx : (pyInt ((st2.parts.length : ℚ) * (1/4))).toNat ∈ c2
                  ∧ st2.segments ≠ []
              · rw [if_pos hx, if_pos (himp hx)]; omega
              · rw [if_neg hx]
                by_cases hy : (pyInt ((st1.parts.length : ℚ) * (1/4))).toNat ∈ c1
                    ∧ st1.segments ≠ []
                · rw [if_pos hy]; omega
                · rw [if_neg hy]; exact h3
            rw [e1, e2]
            refine ih _ _ ?_ ?_ ?_
            · dsimp only; simp [h1]
            · dsimp only; simp
            · dsimp only; exact hsp

/-- C6 counterexample: at thresholds 2/5 and 7/10 on a fixed input
signal (energy windows 0, 6500, 10000, 2800 and sixteen recognized
chunks) the energy walk records boundary sets that are not nested, and
the smaller threshold yields 8 speakers while the larger yields 12, so
the speaker count is not monotone as the threshold decreases. -/
theorem c6_threshold_monotonicity_counterexample :
    ((2:ℚ)/5 ≤ 7/10) ∧
    (simpleTranscribeWithSpeakers (2/5) [0, 6500, 10000, 2800]
        (List.replicate 16 (some "a")) "").speakerCount = 8 ∧
    (simpleTranscribeWithSpeakers (7/10) [0, 6500, 10000, 2800]
        (List.replicate 16 (some "a")) "").speakerCount = 12 ∧
    ¬ (12 ≤ 8) := by
  decide

/-- C6 amended: for a fixed input signal the speaker count at threshold
`t1 ≤ t2` is at least the one at `t2` whenever the boundary set computed
at `t1` contains the boundary set computed at `t2` (the containment the
original claim implicitly assumed; the counterexample shows it can
fail). -/
theorem c6_threshold_monotonicity_amended (t1 t2 : ℚ) (windows : List ℚ)
    (chunks : List (Option String)) (finalText : String) (h12 : t1 ≤ t2)
    (hsub : ∀ i ∈ speakerChangesOf t2 windows, i ∈ speakerChangesOf t1 windows) :
    (simpleTranscribeWithSpeakers t2 windows chunks finalText).speakerCount
      ≤ (simpleTranscribeWithSpeakers t1 windows chunks finalText).speakerCount :=
  (runEnergy_mono_aux (speakerChangesOf t1 windows) (speakerChangesOf t2 windows)
    hsub chunks ⟨[], 1, []⟩ ⟨[], 1, []⟩ rfl Iff.rfl le_rfl).2.2

/-- Witness for the amended C6 theorem at a concrete input where the
boundary sets are nested. -/
theorem c6_threshold_monotonicity_amended_witness :
    (simpleTranscribeWithSpeakers (1/2) [0, 1] [some "a", some "b"] "").speakerCount
      ≤ (simpleTranscribeWithSpeakers (1/4) [0, 1] [some "a", some "b"] "").speakerCount :=
  c6_threshold_monotonicity_amended (1/4) (1/2) [0, 1] [some "a", some "b"] ""
    (by norm_num) (by decide)

theorem pad2_natCast (n : ℕ) : pad2 ((n : ℕ) : ℤ) = pad2Nat n := by
  have ht : toString ((n : ℕ) : ℤ) = toString n := rfl
  unfold pad2 pad2Nat
  by_cases h : n < 10
  · rw [if_pos ⟨Int.natCast_nonneg n, by exact_mod_cast h⟩, if_pos h, ht]
  · have hc : ¬(0 ≤ ((n : ℕ) : ℤ) ∧ ((n : ℕ) : ℤ) < 10) := by
      rintro ⟨-, h2⟩
      exact h (by exact_mod_cast h2)
    rw [if_neg hc, if_neg h, ht]

theorem formatTimestamp_eq_spec (s : ℚ) (hs : 0 ≤ s) :
    formatTimestamp s = specTimestamp s := by
  unfold formatTimestamp specTimestamp
  dsimp only
  have hdiv : (0:ℚ) ≤ s / 60 := by positivity
  have h2 : ⌊s / (60:ℚ)⌋₊ = ⌊s⌋₊ / 60 := by
    have h3 := Nat.floor_div_nat s (60 : ℕ)
    rwa [show ((60:ℕ):ℚ) = (60:ℚ) by norm_cast] at h3
  have hm : ⌊s / 60⌋ = ((⌊s⌋₊ / 60 : ℕ) : ℤ) := by
    rw [← h2]
    exact (Int.natCast_floor_eq_floor hdiv).symm
  have harg : (0:ℚ) ≤ s - 60 * (⌊s / 60⌋ : ℚ) := by
    have h := Int.floor_le (s / 60)
    linarith
  have hsecs : pyInt (s - 60 * (⌊s / 60⌋ : ℚ)) = ((⌊s⌋₊ % 60 : ℕ) : ℤ) := by
    rw [pyInt, if_pos harg]
    have hcast : (60 : ℚ) * ((⌊s / 60⌋ : ℤ) : ℚ) = (((60 * ⌊s / 60⌋ : ℤ)) : ℚ) := by
      push_cast
      ring
    rw [hcast, Int.floor_sub_int]
    have hfl : ⌊s⌋ = ((⌊s⌋₊ : ℕ) : ℤ) := (Int.natCast_floor_eq_floor hs).symm
    rw [hm, hfl]
    have hdm := Nat.div_add_mod ⌊s⌋₊ 60
    omega
  rw [hsecs, hm, pad2_natCast, pad2_natCast]

theorem buildLines_eq_specGroup (cap : ℕ) :
    ∀ (ws : List TWord) (acc : List String) (curStart : Option ℚ) (lastEnd : ℚ)
      (n : ℕ) (s e : ℚ),
      (∀ w ∈ ws, 0 ≤ w.start ∧ 0 ≤ w.stop) →
      n = acc.length →
      (n = 0 → acc = [] ∧ curStart = none) →
      (n ≠ 0 → curStart = some s ∧ lastEnd = e ∧ 0 ≤ s ∧ 0 ≤ e) →
      buildLines cap ws acc.reverse curStart lastEnd
        = (specGroupAux cap 1 ws n s e acc).map specRenderLine := by
  intro ws
  induction ws with
  | nil =>
      intro acc curStart lastEnd n s e hws hn h0 h1
      by_cases hz : n = 0
      · obtain ⟨hacc, -⟩ := h0 hz
        subst hacc
        simp [buildLines, specGroupAux, hz]
      · obtain ⟨hcs, hle, hs0, he0⟩ := h1 hz
        subst hcs hle
        have hacc : acc ≠ [] := by
          intro h
          apply hz
          rw [hn, h]
          rfl
        simp only [buildLines, specGroupAux, if_neg hz]
        rw [if_neg (by simpa using hacc)]
        simp [renderLine, specRenderLine, formatTimestamp_eq_spec s hs0,
          formatTimestamp_eq_spec lastEnd he0]
  | cons w rest ih =>
      intro acc curStart lastEnd n s e hws hn h0 h1
      have hw := hws w (List.mem_cons_self _ _)
      have hws' : ∀ x ∈ rest, 0 ≤ x.start ∧ 0 ≤ x.stop := fun x hx =>
        hws x (List.mem_cons_of_mem _ hx)
      have hls : curStart.getD w.start = (if n = 0 then w.start else s) := by
        by_cases hz : n = 0
        · obtain ⟨-, hcs⟩ := h0 hz
          rw [hcs, if_pos hz]
          rfl
        · obtain ⟨hcs, -, -, -⟩ := h1 hz
          rw [hcs, if_neg hz]
          rfl
      have hs' : 0 ≤ (if n = 0 then w.start else s) := by
        by_cases hz : n = 0
        · rw [if_pos hz]; exact hw.1
        · obtain ⟨-, -, hs0, -⟩ := h1 hz
          rw [if_neg hz]; exact hs0
      simp only [buildLines, specGroupAux]
      rw [hls, show (acc.reverse ++ [w.word]).length = n + 1 by simp [hn]]
      rw [show acc.reverse ++ [w.word] = (w.word :: acc).reverse from
        (List.reverse_cons w.word acc).symm]
      cases hb : (decide (cap ≤ n + 1) || pauseGap 1 w rest)
      · rw [if_neg Bool.false_ne_true, if_neg Bool.false_ne_true]
        exact ih (w.word :: acc) (some (if n = 0 then w.start else s)) w.stop
          (n + 1) (if n = 0 then w.start else s) w.stop hws' (by simp [hn])
          (by intro h; exact absurd h (Nat.succ_ne_zero n))
          (by intro _; exact ⟨rfl, rfl, hs', hw.2⟩)
      · rw [if_pos rfl, if_pos rfl]
        rw [List.map_cons]
        refine congrArg₂ _ ?_ ?_
        · simp [renderLine, specRenderLine,
            formatTimestamp_eq_spec _ hs', formatTimestamp_eq_spec _ hw.2]
        · exact ih ([] : List String) none w.stop 0 0 0 hws' rfl
            (fun _ => ⟨rfl, rfl⟩) (fun h => absurd rfl h)

/-- C1: the timestamp formatter closes lines exactly at the word cap
(default 10) or when the inter-word gap exceeds the 1-second pause
threshold, rendering each closed line as `[mm:ss - mm:ss] text` with the
times truncated to whole seconds (shown by agreement with the spec-side
formatter on every word list with non-negative times), and on the scenario of
the spec it produces exactly the two expected lines. -/
theorem c1_timestamp_formatting (ws : List TWord)
    (hpos : ∀ w ∈ ws, 0 ≤ w.start ∧ 0 ≤ w.stop) :
    formatTimestampedTranscript ws = specFormatTranscript ws ∧
    formatTimestampedTranscript exampleWords
      = "[00:00 - 00:01] hello world\n[00:03 - 00:04] pause" := by
  constructor
  · unfold formatTimestampedTranscript specFormatTranscript
    cases ws with
    | nil => rfl
    | cons w rest =>
        rw [if_neg (by simp)]
        exact congrArg (String.intercalate "\n")
          (buildLines_eq_specGroup 10 (w :: rest) [] none 0 0 0 0 hpos rfl
            (fun _ => ⟨rfl, rfl⟩) (fun h => absurd rfl h))
  · decide

/-- Witness for C1 at the scenario word list of the spec. -/
theorem c1_timestamp_formatting_witness :
    formatTimestampedTranscript exampleWords = specFormatTranscript exampleWords ∧
    formatTimestampedTranscript exampleWords
      = "[00:00 - 00:01] hello world\n[00:03 - 00:04] pause" :=
  c1_timestamp_formatting exampleWords (by decide)
